import Mathlib

/-!
# DXFile: a verification development for `src/cpp/dxcpp/bindings/dxfile.cc`

The file handle `DXFile` is embedded as a record of its member variables, each
member function as a function on that record.  Conventions:

* `int64_t` / `int` values are `Int`; sizes of containers are `Nat`.  In the read path
  and the linear query every `int64_t` addition and subtraction is followed by `wrap64`,
  the two's-complement value that the compiled code holds after an overflow.  Counters
  that only count up from a small constant (`cur_part_`, `retries`) are not wrapped.
* A byte is a `Nat`; no function of the source inspects byte values.
* `std::stringstream buffer_` is the list of bytes written since the last
  `buffer_.str(string())`; `buffer_.tellp()` is its length.
* `uploadPartRequestsQueue.produce(job)` appends `job` to the trace `produced`
  (oldest first).  Worker threads consume that queue concurrently; what they do
  with a job is `uploadPart`.
* Loops and recursions of the source that need not terminate carry a fuel
  argument and return `Option`.
-/

namespace DXFile

abbrev Byte := Nat

/-- Largest value of an `int64_t`, `2^63 - 1`. -/
def INT64_MAX : Int := 9223372036854775807

/-- Smallest value of an `int64_t`, `-2^63`. -/
def INT64_MIN : Int := -9223372036854775808

/-- The `int64_t` that holds the result `x` of an addition or subtraction: `x` reduced
modulo `2^64` into `[-2^63, 2^63)`. -/
def wrap64 (x : Int) : Int :=
  (x + 9223372036854775808) % 18446744073709551616 - 9223372036854775808

/-- Control state of one `readChunk_` thread of a linear query. -/
inductive LqWorker where
  /-- At the head of the `while (true)` loop, about to lock `lq_query_start_mutex_`. -/
  | atLoopHead : LqWorker
  /-- Has claimed the range starting at `start`, `getChunkHttp_` not yet done. -/
  | claimed (start : Int) : LqWorker
  /-- Holds the bytes `tmp` of its range, waiting to store them in `lq_results_`. -/
  | fetched (start : Int) (tmp : List Byte) : LqWorker
  /-- Left the loop through `break`. -/
  | exited : LqWorker
  deriving DecidableEq, Repr

/-- Member variables of `class DXFile` that `dxfile.cc` reads or writes. -/
structure Handle where
  /-- Identity of the remote object (members of the base class `DXDataObject`). -/
  dxid_ : String
  proj_ : String
  pos_ : Int
  file_length_ : Int
  buffer_ : List Byte
  cur_part_ : Int
  eof_ : Bool
  is_closed_ : Bool
  gcount_ : Int
  countThreadsWaitingOnConsume : Int
  countThreadsNotWaitingOnConsume : Int
  /-- Number of threads in the vector `writeThreads`. -/
  writeThreads : Nat
  /-- Jobs passed to `uploadPartRequestsQueue.produce`, oldest first. -/
  produced : List (List Byte × Int)
  lq_query_start_ : Int
  lq_query_end_ : Int
  lq_chunk_limit_ : Int
  lq_max_chunks_ : Nat
  lq_next_result_ : Int
  /-- The `std::map<int64_t, std::string>`, as an association list sorted by key. -/
  lq_results_ : List (Int × List Byte)
  lq_url : String
  lq_readThreads_ : List LqWorker
  deriving DecidableEq, Repr

/-- A handle before `init_internals_`: every member zero or empty. -/
def blank : Handle :=
  { dxid_ := "", proj_ := "", pos_ := 0, file_length_ := 0, buffer_ := [], cur_part_ := 0, eof_ := false,
    is_closed_ := false, gcount_ := 0, countThreadsWaitingOnConsume := 0,
    countThreadsNotWaitingOnConsume := 0, writeThreads := 0, produced := [],
    lq_query_start_ := 0, lq_query_end_ := 0, lq_chunk_limit_ := 0, lq_max_chunks_ := 0,
    lq_next_result_ := 0, lq_results_ := [], lq_url := "", lq_readThreads_ := [] }

/-- `DXFile::init_internals_` (lines 67-77). -/
def init_internals_ (f : Handle) : Handle :=
  { f with
    pos_ := 0
    file_length_ := -1
    buffer_ := []
    cur_part_ := 1
    eof_ := false
    is_closed_ := false
    countThreadsWaitingOnConsume := 0
    countThreadsNotWaitingOnConsume := 0 }

/-! ## Write path -/

/-- Modelled from the spec: the constant `MAX_WRITE_THREADS` is declared in `dxfile.h`,
which is not among the sources; the spec gives its default, 5. -/
def MAX_WRITE_THREADS : Nat := 5

/-- `DXFile::createWriteThreads_` (lines 358-364). -/
def createWriteThreads_ (f : Handle) : Handle :=
  if f.writeThreads = 0 then { f with writeThreads := MAX_WRITE_THREADS } else f

/-- `DXFile::joinAllWriteThreads_` (lines 258-312), as seen by the calling thread once it
returns: the queue has been drained, every worker joined, the vector cleared and both
counters reset.  With no worker it returns at once. -/
def joinAllWriteThreads_ (f : Handle) : Handle :=
  if f.writeThreads = 0 then f
  else { f with
    writeThreads := 0
    countThreadsWaitingOnConsume := 0
    countThreadsNotWaitingOnConsume := 0 }

/-- `DXFile::flush` (lines 395-408). -/
def flush (f : Handle) : Handle :=
  let f3 :=
    if 0 < f.buffer_.length then
      let f1 := if f.writeThreads = 0 then createWriteThreads_ f else f
      let f2 := { f1 with produced := f1.produced ++ [(f1.buffer_, f1.cur_part_)] }
      { f2 with cur_part_ := f2.cur_part_ + 1 }
    else f
  let f4 := joinAllWriteThreads_ f3
  { f4 with buffer_ := [] }

/-- The `HttpMethod` enumeration of `SimpleHttp.h`. -/
inductive HttpMethod where
  | HTTP_POST : HttpMethod
  | HTTP_HEAD : HttpMethod
  | HTTP_GET : HttpMethod
  | HTTP_DELETE : HttpMethod
  | HTTP_PUT : HttpMethod
  deriving DecidableEq, Repr

/-- The part of an `HttpRequest` object that `dxfile.cc` reads after a request. -/
structure HttpRequest where
  responseCode : Int
  respData : List Byte
  deriving DecidableEq, Repr

/-- Arguments of one `HttpRequest::request(method, url, headers, data, size)`; `size` is
`data.length`, `headers` the key/value pairs of the `HttpHeaders` object. -/
structure HttpCall where
  method : HttpMethod
  url : String
  headers : List (String × String)
  data : List Byte
  deriving DecidableEq, Repr

/-- What one `HttpRequest::request` does: throws `HttpRequestException` with text `what`,
or returns a response. -/
inductive Attempt where
  | threw (what : String) : Attempt
  | response (resp : HttpRequest) : Attempt
  deriving DecidableEq, Repr

/-- Functions of `SimpleHttp.h` used by the retrying caller, whose code is not among the
sources; they are parameters of the model. -/
structure SimpleHttp where
  getHttpMethodName : HttpMethod → String
  getAllHeadersAsVector : List (String × String) → List String

deriving instance DecidableEq for Except

/-- Everything observable of one call of `makeHTTPRequestForFileReadAndWrite`. -/
structure RetryResult where
  /-- The `DXFileError` text if it threw, else the final value of `resp`. -/
  outcome : Except String HttpRequest
  /-- The requests issued, oldest first. -/
  sent : List HttpCall
  /-- Arguments of the `usleep` calls (microseconds), oldest first. -/
  sleeps : List Nat
  /-- Strings written to `std::cerr`, oldest first. -/
  cerr : List String
  deriving DecidableEq

/-- The constant `MAX_TRIES` of line 15. -/
def MAX_TRIES : Nat := 5

/-- Lines 40-44: the text listing the headers of the request. -/
def headerStr (hvec : List String) : String :=
  let rec go (i : Nat) : List String → String → String
    | [], acc => acc
    | h :: hs, acc => go (i + 1) hs (acc ++ ("\t" ++ toString (i + 1) ++ ")" ++ h ++ "\n"))
  go 0 hvec ("HTTP Headers sent with request:" ++ (if hvec.length = 0 then " None\n" else "\n"))

/-- Line 45: the text of the `DXFileError`. -/
def givingUpMessage (http : SimpleHttp) (call : HttpCall) (retries : Nat)
    (wrongThingDescription : String) : String :=
  "******\nERROR (Unrecoverable): while performing : '" ++ http.getHttpMethodName call.method
    ++ " " ++ call.url ++ "'" ++ ".\n" ++ headerStr (http.getAllHeadersAsVector call.headers)
    ++ "Giving up after " ++ toString retries ++ " tries.\nError message: "
    ++ wrongThingDescription ++ "\n******\n"

/-- Line 57: the text written to `std::cerr` before a retry. -/
def retryMessage (http : SimpleHttp) (call : HttpCall) (retries : Nat)
    (wrongThingDescription : String) : String :=
  "\nRetry #" ++ toString retries ++ ": Will start retrying '"
    ++ http.getHttpMethodName call.method ++ " " ++ call.url ++ "' in "
    ++ toString (1 <<< retries) ++ " seconds. Error in previous try: " ++ wrongThingDescription

/-- The `while (true)` loop of `makeHTTPRequestForFileReadAndWrite` (lines 19-64).  `net k` is
what the `k`-th request of this call does (counted from 0); one unit of fuel pays for one
iteration.  State: `retries`, `resp` and the record of what has been observed so far. -/
def retryLoop (http : SimpleHttp) (net : Nat → Attempt) (call : HttpCall) :
    Nat → Nat → HttpRequest → List HttpCall → List Nat → List String → Option RetryResult
  | 0, _, _, _, _, _ => none
  | fuel + 1, retries, resp, sent, sleeps, cerr =>
    -- try { resp = HttpRequest::request(...) } catch (HttpRequestException e) { ... }
    let tried : Bool × String × HttpRequest :=
      match net sent.length with
      | Attempt.response r => (false, "", r)
      | Attempt.threw what => (true, what, resp)
    let resp1 := tried.2.2
    let sent1 := sent ++ [call]
    -- if (!someThingWentWrong && (resp.responseCode < 200 || resp.responseCode >= 300))
    let checked : Bool × String :=
      if tried.1 = false ∧ (resp1.responseCode < 200 ∨ resp1.responseCode ≥ 300) then
        (true, "Server returned HTTP Response code = " ++ toString resp1.responseCode)
      else (tried.1, tried.2.1)
    let someThingWentWrong := checked.1
    let wrongThingDescription := checked.2
    if someThingWentWrong then
      let retries1 := retries + 1
      if retries1 ≥ MAX_TRIES then
        some { outcome := Except.error (givingUpMessage http call retries1 wrongThingDescription)
               sent := sent1, sleeps := sleeps, cerr := cerr }
      else
        retryLoop http net call fuel retries1 resp1 sent1
          (sleeps ++ [(1 <<< retries1) * 1000 * 1000])
          (cerr ++ [retryMessage http call retries1 wrongThingDescription])
    else
      some { outcome := Except.ok resp1, sent := sent1, sleeps := sleeps, cerr := cerr }

/-- `makeHTTPRequestForFileReadAndWrite` (lines 14-65) called with `resp` holding `resp0`.
`MAX_TRIES` iterations are enough for every `net` (`retry_returns`). -/
def makeHTTPRequestForFileReadAndWrite (http : SimpleHttp) (net : Nat → Attempt)
    (resp0 : HttpRequest) (call : HttpCall) : Option RetryResult :=
  retryLoop http net call MAX_TRIES 0 resp0 [] [] []

/-- An attempt fails when the transport throws or the status is outside 200-299. -/
def Attempt.failed : Attempt → Bool
  | Attempt.threw _ => true
  | Attempt.response r => decide (r.responseCode < 200 ∨ r.responseCode ≥ 300)

/-- The failure description of a failed attempt: the exception text, or the status line. -/
def Attempt.description : Attempt → String
  | Attempt.threw what => what
  | Attempt.response r => "Server returned HTTP Response code = " ++ toString r.responseCode

/-- The text `needle` occurs in the text `s`. -/
def Contains (s needle : String) : Prop :=
  needle.data <:+: s.data

instance (s needle : String) : Decidable (Contains s needle) := by
  unfold Contains; infer_instance

/-! ## Part upload -/

/-- The request that `DXFile::uploadPart(const char*, int64_t, int)` (lines 416-427) passes
to the retrying caller.  `fileUpload` is the API call of line 421 for this handle's `dxid_`:
it maps the `index` entry of `input_params` (absent when `index < 1`) to the `url` field of
the response. -/
def uploadPartCall (fileUpload : Option Int → String) (ptr : List Byte) (index : Int) :
    HttpCall :=
  let n : Int := ptr.length
  let input_params : Option Int := if index ≥ 1 then some index else none
  let resp_url := fileUpload input_params
  -- line 423: req_headers["Content-Length"] = lexical_cast<string>(n)
  let _req_headers : List (String × String) := [("Content-Length", toString n)]
  -- line 426: the header argument is `HttpHeaders()`, a new empty object
  { method := HttpMethod.HTTP_POST, url := resp_url, headers := [], data := ptr }

/-- `DXFile::uploadPart` (lines 416-427). -/
def uploadPart (http : SimpleHttp) (net : Nat → Attempt) (fileUpload : Option Int → String)
    (ptr : List Byte) (index : Int) : Option RetryResult :=
  makeHTTPRequestForFileReadAndWrite http net { responseCode := 0, respData := [] }
    (uploadPartCall fileUpload ptr index)

/-! ## Handle state and lifecycle -/

/-- Calls of the external API client (`fileNew`, `fileDownload`, `fileClose`, `describe`,
`waitOnState`), in the order a member function issues them. -/
inductive ApiCall where
  | describe (dxid : String) : ApiCall
  | fileDownload (dxid : String) : ApiCall
  | fileClose (dxid : String) : ApiCall
  | waitOnState (dxid : String) (state : String) : ApiCall
  deriving DecidableEq, Repr

/-- What the API client answers while one member function runs: the `state` and `size`
fields of `describe()` and the `url` field of `fileDownload(dxid_)`. -/
structure Remote where
  state : String
  size : Int
  downloadUrl : String
  deriving DecidableEq, Repr

/-- Result of a member function: the value returned (or the text of the `DXFileError`
thrown), the handle afterwards, and the API calls issued. -/
structure Ret (α : Type) where
  value : Except String α
  handle : Handle
  api : List ApiCall

/-- `DXFile::is_closed` (lines 439-447); `is_closed_` is `mutable`. -/
def is_closed (r : Remote) (f : Handle) : Ret Bool :=
  if f.is_closed_ = true then
    { value := Except.ok true, handle := f, api := [] }
  else
    let closed : Bool := decide (r.state = "closed")
    { value := Except.ok closed, handle := { f with is_closed_ := closed },
      api := [ApiCall.describe f.dxid_] }

/-- `DXFile::is_open` (lines 429-437). -/
def is_open (r : Remote) (f : Handle) : Ret Bool :=
  if f.is_closed_ = true then
    { value := Except.ok false, handle := f, api := [] }
  else
    { value := Except.ok (decide (r.state = "open")), handle := f,
      api := [ApiCall.describe f.dxid_] }

/-- `DXFile::seek` (lines 246-254). -/
def seek (r : Remote) (pos : Int) (f : Handle) : Ret Unit :=
  let c := is_closed r f
  if c.value = Except.ok false then
    { value := Except.error
        "ERROR: Cannot call DXFile::seek() when a file is not in 'closed' state"
      handle := c.handle, api := c.api }
  else
    let f1 : Handle := { c.handle with pos_ := pos }
    let f2 : Handle := if f1.pos_ < f1.file_length_ then { f1 with eof_ := false } else f1
    { value := Except.ok (), handle := f2, api := c.api }

/-- `DXFile::stopLinearQuery` (lines 226-235), as seen by the caller once it returns: every
worker interrupted and joined, the vector and the reorder buffer cleared. -/
def stopLinearQuery (f : Handle) : Handle :=
  if f.lq_readThreads_.length = 0 then f
  else { f with lq_readThreads_ := [], lq_results_ := [] }

/-- `DXFile::startLinearQuery` (lines 133-153).  The `thread_count` new threads stand at the
head of the loop of `readChunk_`. -/
def startLinearQuery (r : Remote) (start_byte num_bytes chunk_size : Int)
    (max_chunks thread_count : Nat) (f : Handle) : Ret Unit :=
  let c := is_closed r f
  if c.value = Except.ok false then
    { value := Except.error
        "ERROR: Cannot call DXFile::startLinearQuery() on a file in non-closed state"
      handle := c.handle, api := c.api }
  else
    let f1 := stopLinearQuery c.handle
    let f2 := { f1 with lq_query_start_ := if start_byte = -1 then 0 else start_byte }
    let f3 := { f2 with
      lq_query_end_ :=
        if num_bytes = -1 then r.size else wrap64 (f2.lq_query_start_ + num_bytes) }
    let api3 := if num_bytes = -1 then c.api ++ [ApiCall.describe f.dxid_] else c.api
    let f4 := { f3 with
      lq_chunk_limit_ := chunk_size
      lq_max_chunks_ := max_chunks
      lq_next_result_ := f3.lq_query_start_
      lq_results_ := [] }
    let f5 := { f4 with lq_url := r.downloadUrl }
    { value := Except.ok ()
      handle := { f5 with
        lq_readThreads_ := f5.lq_readThreads_ ++ List.replicate thread_count LqWorker.atLoopHead }
      api := api3 ++ [ApiCall.fileDownload f.dxid_] }

/-- `DXFile::setIDs` (lines 79-84). -/
def setIDs (dxid proj : String) (f : Handle) : Handle :=
  let f1 := init_internals_ (flush (stopLinearQuery f))
  { f1 with dxid_ := dxid, proj_ := proj }

/-- Everything observable of one `DXFile::read`. -/
structure ReadResult where
  handle : Handle
  api : List ApiCall
  /-- Calls of the retrying HTTP caller, with what each did. -/
  calls : List (HttpCall × RetryResult)
  /-- Bytes copied to `ptr` by `memcpy`. -/
  copied : List Byte
  /-- Text of the `DXFileError` if the retrying caller threw. -/
  error : Option String

/-- `DXFile::read` (lines 98-130).  `net` is the behaviour of the HTTP client during the one
call of the retrying caller.  `pos_ + n - 1`, `file_length_ - 1` and `endbyte + 1` are
`int64_t` results; `gcount_` takes the size of a `std::string`, which is below `2^63`. -/
def read (r : Remote) (http : SimpleHttp) (net : Nat → Attempt) (n : Int) (f : Handle) :
    Option ReadResult :=
  let f1 := { f with gcount_ := 0 }
  let url := r.downloadUrl
  let api1 := [ApiCall.fileDownload f.dxid_]
  let learn : Handle × List ApiCall :=
    if f1.file_length_ < 0 then
      ({ f1 with file_length_ := r.size }, api1 ++ [ApiCall.describe f.dxid_])
    else (f1, api1)
  let f2 := learn.1
  if f2.pos_ ≥ f2.file_length_ then
    some { handle := { f2 with gcount_ := 0 }, api := learn.2, calls := [], copied := [],
           error := none }
  else
    let endbyte0 := wrap64 (f2.file_length_ - 1)
    let requested := wrap64 (wrap64 (f2.pos_ + n) - 1)
    let cut : Int × Handle :=
      if requested < endbyte0 then (requested, f2)
      else (endbyte0, { f2 with eof_ := true })
    let endbyte := cut.1
    let f3 := cut.2
    let call : HttpCall :=
      { method := HttpMethod.HTTP_GET, url := url
        headers := [("Range", "bytes=" ++ toString f3.pos_ ++ "-" ++ toString endbyte)]
        data := [] }
    let f4 := { f3 with pos_ := wrap64 (endbyte + 1) }
    match makeHTTPRequestForFileReadAndWrite http net { responseCode := 0, respData := [] }
        call with
    | none => none
    | some rr =>
      match rr.outcome with
      | Except.error e =>
        some { handle := f4, api := learn.2, calls := [(call, rr)], copied := [],
               error := some e }
      | Except.ok resp =>
        some { handle := { f4 with gcount_ := resp.respData.length }, api := learn.2,
               calls := [(call, rr)], copied := resp.respData, error := none }

/-- The data-model invariant `pos ≤ length` whenever `length ≥ 0`. -/
def PosWithinLength (f : Handle) : Prop :=
  0 ≤ f.file_length_ → f.pos_ ≤ f.file_length_

instance (f : Handle) : Decidable (PosWithinLength f) := by
  unfold PosWithinLength; infer_instance

/-! ## Linear query -/

/-- `lq_results_[k] = v` on the sorted association list: the entry with key `k` is replaced
or inserted at its place. -/
def mapInsert (k : Int) (v : List Byte) (m : List (Int × List Byte)) : List (Int × List Byte) :=
  m.filter (fun e => decide (e.1 < k)) ++ (k, v) :: m.filter (fun e => decide (k < e.1))

/-- The loop of `DXFile::getChunkHttp_` (lines 160-174).  `serve lo hi` is the body that the
retrying caller returns for `Range: bytes=lo-hi` on `lq_url`; one unit of fuel pays for one
test of the loop condition. -/
def getChunkLoop (serve : Int → Int → List Byte) (end_ : Int) :
    Nat → Int → List Byte → Option (List Byte)
  | 0, _, _ => none
  | fuel + 1, last_byte_in_result, result =>
    if last_byte_in_result < end_ then
      let respData := serve (wrap64 (last_byte_in_result + 1)) end_
      getChunkLoop serve end_ fuel (wrap64 (last_byte_in_result + respData.length))
        (result ++ respData)
    else some result

/-- `DXFile::getChunkHttp_` (lines 157-176) called with an empty `result`: `none` when the
loop does not end within the fuel or the `assert` of line 175 fails (the size of a
`std::string` is below `2^63`, so it equals the `int64_t` on the right only when that is
the same non-negative number). -/
def getChunkHttp_ (serve : Int → Int → List Byte) (fuel : Nat) (start end_ : Int) :
    Option (List Byte) :=
  match getChunkLoop serve end_ fuel (wrap64 (start - 1)) [] with
  | none => none
  | some result =>
    if (result.length : Int) = wrap64 (wrap64 (end_ - start) + 1) then some result else none

/-- Line 189: `end = std::min((start + lq_chunk_limit_ - 1), lq_query_end_ - 1)`, the last
byte of the range that starts at `start`. -/
def chunkEnd (f : Handle) (start : Int) : Int :=
  min (wrap64 (wrap64 (start + f.lq_chunk_limit_) - 1)) (wrap64 (f.lq_query_end_ - 1))

/-- Worker `i` of the handle replaced by `w`. -/
def setWorker (f : Handle) (i : Nat) (w : LqWorker) : Handle :=
  { f with lq_readThreads_ := f.lq_readThreads_.set i w }

/-- The next atomic action of thread `i` running `DXFile::readChunk_` (lines 178-204):
the claim under `lq_query_start_mutex_` (or the `break`), the fetch of the claimed range, or
the store under `lq_results_mutex_`.  `none`: the thread has left the loop, or does not get
past the wait of lines 195-199 in this state, or its fetch does not return. -/
def readChunkStep (serve : Int → Int → List Byte) (i : Nat) (f : Handle) : Option Handle :=
  match f.lq_readThreads_[i]? with
  | none => none
  | some LqWorker.exited => none
  | some LqWorker.atLoopHead =>
    if f.lq_query_start_ ≥ f.lq_query_end_ then
      some (setWorker f i LqWorker.exited)
    else
      let start := f.lq_query_start_
      some (setWorker
        { f with lq_query_start_ := wrap64 (f.lq_query_start_ + f.lq_chunk_limit_) } i
        (LqWorker.claimed start))
  | some (LqWorker.claimed start) =>
    let end_ := chunkEnd f start
    match getChunkHttp_ serve ((end_ - start + 1).toNat + 1) start end_ with
    | none => none
    | some tmp => some (setWorker f i (LqWorker.fetched start tmp))
  | some (LqWorker.fetched start tmp) =>
    if f.lq_next_result_ ≠ start ∧ f.lq_results_.length ≥ f.lq_max_chunks_ then none
    else
      some (setWorker { f with lq_results_ := mapInsert start tmp f.lq_results_ } i
        LqWorker.atLoopHead)

/-- `DXFile::getNextChunk` (lines 206-224).  Outer `none`: the caller stays in the wait of
lines 214-218 in this state.  Inner `none`: it returns `false`; inner `some chunk`: it
returns `true` with `chunk`. -/
def getNextChunk (f : Handle) : Option (Option (List Byte) × Handle) :=
  if f.lq_readThreads_.length = 0 then some (none, f)
  else if f.lq_next_result_ ≥ f.lq_query_end_ then some (none, f)
  else
    match f.lq_results_ with
    | [] => none
    | (first, second) :: rest =>
      if first ≠ f.lq_next_result_ then none
      else
        some (some second,
          { f with
            lq_results_ := rest
            lq_next_result_ := wrap64 (f.lq_next_result_ + second.length) })

/-- A handle during a linear query together with the record of the chunks that
`getNextChunk` has returned so far, each with the offset `lq_next_result_` it was returned
at. -/
structure LqState where
  handle : Handle
  delivered : List (Int × List Byte)
  deriving DecidableEq

/-- Who moves next: one of the worker threads, or the caller with a `getNextChunk`. -/
inductive LqMove where
  | worker (i : Nat) : LqMove
  | caller : LqMove
  deriving DecidableEq, Repr

/-- One step of the linear query. -/
def lqStep (serve : Int → Int → List Byte) : LqMove → LqState → Option LqState
  | LqMove.worker i, s =>
    (readChunkStep serve i s.handle).map (fun h => { s with handle := h })
  | LqMove.caller, s =>
    match getNextChunk s.handle with
    | none => none
    | some (none, h) => some { s with handle := h }
    | some (some chunk, h) =>
      some { handle := h, delivered := s.delivered ++ [(s.handle.lq_next_result_, chunk)] }

/-- The steps of a schedule, one after the other. -/
def lqRun (serve : Int → Int → List Byte) : List LqMove → LqState → Option LqState
  | [], s => some s
  | m :: ms, s => (lqStep serve m s).bind (lqRun serve ms)

/-- The state `s` is reached from `s0` by some interleaving of worker and caller steps. -/
def LqReachable (serve : Int → Int → List Byte) (s0 s : LqState) : Prop :=
  ∃ moves, lqRun serve moves s0 = some s

/-- The bytes of `file` at offsets `a, ..., b - 1`. -/
def fileRange (file : List Byte) (a b : Int) : List Byte :=
  (file.drop a.toNat).take (b - a).toNat

/-- A storage server that answers `Range: bytes=lo-hi` with exactly those bytes of `file`. -/
def serveFile (file : List Byte) (lo hi : Int) : List Byte :=
  fileRange file lo (hi + 1)

/-- The bound on the reorder buffer that the wait of lines 195-199 maintains. -/
def ReorderInv (max_chunks : Nat) (f : Handle) : Prop :=
  f.lq_max_chunks_ = max_chunks ∧ f.lq_results_.length ≤ max_chunks + 1 ∧
    (f.lq_results_.length = max_chunks + 1 → ∃ v, (f.lq_next_result_, v) ∈ f.lq_results_)

/-- The request that `DXFile::read` passes to the retrying caller for the bytes
`pos, ..., endbyte` (lines 120-126): a GET of the download URL with the header
`Range: bytes=pos-endbyte`. -/
def rangedGet (url : String) (pos endbyte : Int) : HttpCall :=
  { method := HttpMethod.HTTP_GET, url := url,
    headers := [("Range", "bytes=" ++ toString pos ++ "-" ++ toString endbyte)], data := [] }

/-- The `endbyte` of lines 114-118 of `DXFile::read` for a file of `length` bytes:
`length - 1`, or `pos + n - 1` when that `int64_t` is smaller. -/
def readEndbyte (length pos n : Int) : Int :=
  if wrap64 (wrap64 (pos + n) - 1) < wrap64 (length - 1) then wrap64 (wrap64 (pos + n) - 1)
  else wrap64 (length - 1)

theorem wrap64_of_range (x : Int) (h1 : INT64_MIN ≤ x) (h2 : x ≤ INT64_MAX) : wrap64 x = x := by
  unfold INT64_MIN at h1
  unfold INT64_MAX at h2
  unfold wrap64
  omega

theorem wrap64_range (x : Int) : INT64_MIN ≤ wrap64 x ∧ wrap64 x ≤ INT64_MAX := by
  unfold INT64_MIN INT64_MAX wrap64
  omega

theorem wrap64_sub_one (a : Int) : wrap64 (wrap64 a - 1) = wrap64 (a - 1) := by
  unfold wrap64
  omega

theorem contains_of_eq (s a needle b : String) (h : s = a ++ needle ++ b) : Contains s needle := by
  unfold Contains
  exact ⟨a.data, b.data, by rw [h]; simp [String.data_append]⟩

theorem toString_max_tries : toString (4 + 1) = "5" := by decide

theorem givingUp_contains_tries (http : SimpleHttp) (call : HttpCall) (d : String) :
    Contains (givingUpMessage http call (4 + 1) d) "Giving up after 5 tries" := by
  apply contains_of_eq _
    ("******\nERROR (Unrecoverable): while performing : '" ++ http.getHttpMethodName call.method
      ++ " " ++ call.url ++ "'" ++ ".\n" ++ headerStr (http.getAllHeadersAsVector call.headers))
    _ (".\nError message: " ++ d ++ "\n******\n")
  unfold givingUpMessage
  rw [toString_max_tries]
  apply String.ext
  simp [String.data_append, List.append_assoc]

theorem givingUp_contains_method (http : SimpleHttp) (call : HttpCall) (n : Nat) (d : String) :
    Contains (givingUpMessage http call n d) (http.getHttpMethodName call.method) := by
  apply contains_of_eq _ "******\nERROR (Unrecoverable): while performing : '" _
    (" " ++ call.url ++ "'" ++ ".\n" ++ headerStr (http.getAllHeadersAsVector call.headers)
      ++ "Giving up after " ++ toString n ++ " tries.\nError message: " ++ d ++ "\n******\n")
  unfold givingUpMessage
  simp only [String.append_assoc]

theorem givingUp_contains_url (http : SimpleHttp) (call : HttpCall) (n : Nat) (d : String) :
    Contains (givingUpMessage http call n d) call.url := by
  apply contains_of_eq _
    ("******\nERROR (Unrecoverable): while performing : '" ++ http.getHttpMethodName call.method
      ++ " ") _
    ("'" ++ ".\n" ++ headerStr (http.getAllHeadersAsVector call.headers)
      ++ "Giving up after " ++ toString n ++ " tries.\nError message: " ++ d ++ "\n******\n")
  unfold givingUpMessage
  simp only [String.append_assoc]

theorem givingUp_contains_description (http : SimpleHttp) (call : HttpCall) (n : Nat)
    (d : String) : Contains (givingUpMessage http call n d) d := by
  apply contains_of_eq _
    ("******\nERROR (Unrecoverable): while performing : '" ++ http.getHttpMethodName call.method
      ++ " " ++ call.url ++ "'" ++ ".\n" ++ headerStr (http.getAllHeadersAsVector call.headers)
      ++ "Giving up after " ++ toString n ++ " tries.\nError message: ") _ "\n******\n"
  unfold givingUpMessage
  simp only [String.append_assoc]

/-- One iteration of the loop, by the kind of the attempt it makes. -/
theorem retryLoop_step (http : SimpleHttp) (net : Nat → Attempt) (call : HttpCall)
    (fuel retries : Nat) (resp : HttpRequest) (sent : List HttpCall) (sleeps : List Nat)
    (cerr : List String) :
    ((net sent.length).failed = false →
      ∃ rr, net sent.length = Attempt.response rr ∧
        retryLoop http net call (fuel + 1) retries resp sent sleeps cerr
          = some { outcome := Except.ok rr, sent := sent ++ [call], sleeps := sleeps,
                   cerr := cerr }) ∧
    ((net sent.length).failed = true → MAX_TRIES ≤ retries + 1 →
      retryLoop http net call (fuel + 1) retries resp sent sleeps cerr
        = some { outcome := Except.error
                   (givingUpMessage http call (retries + 1) (net sent.length).description)
                 sent := sent ++ [call], sleeps := sleeps, cerr := cerr }) ∧
    ((net sent.length).failed = true → retries + 1 < MAX_TRIES →
      ∃ resp1 cerr1,
        retryLoop http net call (fuel + 1) retries resp sent sleeps cerr
          = retryLoop http net call fuel (retries + 1) resp1 (sent ++ [call])
              (sleeps ++ [2 ^ (retries + 1) * 1000000]) cerr1) := by
  have hshift : (1 <<< (retries + 1)) * 1000 * 1000 = 2 ^ (retries + 1) * 1000000 := by
    rw [Nat.one_shiftLeft]; omega
  cases hnet : net sent.length with
  | threw what =>
    refine ⟨by simp [Attempt.failed], ?_, ?_⟩
    · intro _ hge
      simp [retryLoop, hnet, Attempt.description, hge]
    · intro _ hlt
      have hnge : ¬ (retries + 1 ≥ MAX_TRIES) := by omega
      exact ⟨resp, cerr ++ [retryMessage http call (retries + 1) what],
        by simp [retryLoop, hnet, hnge, hshift]⟩
  | response rr =>
    by_cases hcode : rr.responseCode < 200 ∨ rr.responseCode ≥ 300
    · refine ⟨by simp [Attempt.failed, hcode], ?_, ?_⟩
      · intro _ hge
        simp [retryLoop, hnet, Attempt.description, hge, hcode]
      · intro _ hlt
        have hnge : ¬ (retries + 1 ≥ MAX_TRIES) := by omega
        exact ⟨rr, cerr ++ [retryMessage http call (retries + 1)
          ("Server returned HTTP Response code = " ++ toString rr.responseCode)],
          by simp [retryLoop, hnet, hnge, hshift, hcode]⟩
    · refine ⟨?_, by simp [Attempt.failed, hcode], by simp [Attempt.failed, hcode]⟩
      intro _
      exact ⟨rr, rfl, by simp [retryLoop, hnet, hcode]⟩

/-- The backoff schedule: the sleeps after failed attempts `a+1, ..., a+n`, in microseconds. -/
theorem backoff_cons (a n : Nat) :
    (List.range' (a + 1) (n + 1)).map (fun k => 2 ^ k * 1000000)
      = 2 ^ (a + 1) * 1000000 :: (List.range' (a + 2) n).map (fun k => 2 ^ k * 1000000) := by
  simp [List.range'_succ]

/-- The loop started with `retries` failed attempts behind it: it stops at the first attempt
`j` that succeeds, or at attempt number `MAX_TRIES` (index 4) if none does. -/
theorem retryLoop_spec (http : SimpleHttp) (net : Nat → Attempt) (call : HttpCall) :
    ∀ (fuel retries : Nat) (resp : HttpRequest) (sent : List HttpCall) (sleeps : List Nat)
      (cerr : List String), sent.length = retries → retries < MAX_TRIES →
      MAX_TRIES ≤ fuel + retries →
      ∃ r j, retryLoop http net call fuel retries resp sent sleeps cerr = some r ∧
        retries ≤ j ∧ j < MAX_TRIES ∧ (∀ i, retries ≤ i → i < j → (net i).failed = true) ∧
        r.sent.length = j + 1 ∧ (∀ c ∈ r.sent, c ∈ sent ∨ c = call) ∧
        r.sleeps = sleeps ++ (List.range' (retries + 1) (j - retries)).map
          (fun k => 2 ^ k * 1000000) ∧
        (((net j).failed = false ∧ ∃ rr, net j = Attempt.response rr ∧ r.outcome = Except.ok rr) ∨
         ((net j).failed = true ∧ j + 1 = MAX_TRIES ∧
           r.outcome = Except.error (givingUpMessage http call (j + 1) (net j).description))) := by
  intro fuel
  induction fuel with
  | zero => intro retries _ _ _ _ _ h1 h2; omega
  | succ k ih =>
    intro retries resp sent sleeps cerr hlen hlt hfuel
    obtain ⟨hok, hgive, hretry⟩ := retryLoop_step http net call k retries resp sent sleeps cerr
    rw [hlen] at hok hgive hretry
    cases hf : (net retries).failed with
    | false =>
      obtain ⟨rr, hrr, hrun⟩ := hok hf
      refine ⟨_, retries, hrun, le_refl _, hlt, fun i h1 h2 => by omega, by simp [hlen], ?_,
        by simp, Or.inl ⟨hf, rr, hrr, rfl⟩⟩
      intro c hc
      simp only [List.mem_append, List.mem_singleton] at hc
      exact hc
    | true =>
      by_cases hlast : MAX_TRIES ≤ retries + 1
      · refine ⟨_, retries, hgive hf hlast, le_refl _, hlt, fun i h1 h2 => by omega,
          by simp [hlen], ?_, by simp, Or.inr ⟨hf, by omega, rfl⟩⟩
        intro c hc
        simp only [List.mem_append, List.mem_singleton] at hc
        exact hc
      · obtain ⟨resp1, cerr1, hrun⟩ := hretry hf (by omega)
        obtain ⟨r, j, h1, h2, h3, h4, h5, h6, h7, h8⟩ := ih (retries + 1) resp1 (sent ++ [call])
          (sleeps ++ [2 ^ (retries + 1) * 1000000]) cerr1 (by simp [hlen]) (by omega) (by omega)
        refine ⟨r, j, by rw [hrun, h1], by omega, h3, ?_, h5, ?_, ?_, h8⟩
        · intro i hi1 hi2
          by_cases hi : i = retries
          · rw [hi]; exact hf
          · exact h4 i (by omega) hi2
        · intro c hc
          rcases h6 c hc with h | h
          · simp only [List.mem_append, List.mem_singleton] at h
            exact h
          · exact Or.inr h
        · rw [h7]
          have hj : j - retries = (j - (retries + 1)) + 1 := by omega
          rw [hj, backoff_cons, List.append_assoc]
          rfl

/-- The retrying caller returns for every behaviour of the network: `MAX_TRIES` units of fuel
are enough. -/
theorem retry_returns (http : SimpleHttp) (net : Nat → Attempt) (resp0 : HttpRequest)
    (call : HttpCall) :
    ∃ r j, makeHTTPRequestForFileReadAndWrite http net resp0 call = some r ∧
      j < MAX_TRIES ∧ (∀ i, i < j → (net i).failed = true) ∧
      r.sent.length = j + 1 ∧ (∀ c ∈ r.sent, c = call) ∧
      r.sleeps = (List.range' 1 j).map (fun k => 2 ^ k * 1000000) ∧
      (((net j).failed = false ∧ ∃ rr, net j = Attempt.response rr ∧ r.outcome = Except.ok rr) ∨
       ((net j).failed = true ∧ j + 1 = MAX_TRIES ∧
         r.outcome = Except.error (givingUpMessage http call (j + 1) (net j).description))) := by
  obtain ⟨r, j, h1, _, h3, h4, h5, h6, h7, h8⟩ := retryLoop_spec http net call MAX_TRIES 0 resp0
    [] [] [] rfl (by decide) (by decide)
  refine ⟨r, j, h1, h3, fun i hi => h4 i (Nat.zero_le _) hi, h5, ?_, by simpa using h7, h8⟩
  intro c hc
  rcases h6 c hc with h | h
  · simp at h
  · exact h

/-- C5 (retry exhaustion).  For every behaviour `net` of the HTTP client the retrying caller
returns; it raises a `DXFileError` exactly when each of the first five attempts fails;
otherwise it returns the response of the first successful attempt, having issued no request
after it.  When it raises, the message contains "Giving up after 5 tries", the method name,
the URL and the failure description of the fifth attempt. -/
theorem retry_raises_iff_five_failures (http : SimpleHttp) (net : Nat → Attempt)
    (resp0 : HttpRequest) (call : HttpCall) :
    ∃ r, makeHTTPRequestForFileReadAndWrite http net resp0 call = some r ∧
      ((∃ msg, r.outcome = Except.error msg) ↔ ∀ i, i < 5 → (net i).failed = true) ∧
      (∀ j, j < 5 → (∀ i, i < j → (net i).failed = true) → (net j).failed = false →
        ∃ rr, net j = Attempt.response rr ∧ r.outcome = Except.ok rr ∧ r.sent.length = j + 1) ∧
      ((∀ i, i < 5 → (net i).failed = true) →
        ∃ msg, r.outcome = Except.error msg ∧ Contains msg "Giving up after 5 tries" ∧
          Contains msg (http.getHttpMethodName call.method) ∧ Contains msg call.url ∧
          Contains msg (net 4).description) := by
  obtain ⟨r, j, hrun, hj, hbefore, hsent, _, _, hout⟩ := retry_returns http net resp0 call
  have hj5 : j < 5 := hj
  refine ⟨r, hrun, ?_, ?_, ?_⟩
  · rcases hout with ⟨hf, rr, _, ho⟩ | ⟨hf, hlast, ho⟩
    · constructor
      · rintro ⟨msg, hm⟩
        rw [ho] at hm
        cases hm
      · intro hall
        rw [hall j hj5] at hf
        cases hf
    · constructor
      · intro _ i hi
        have h4 : j = 4 := by have : j + 1 = 5 := hlast; omega
        by_cases hij : i < j
        · exact hbefore i hij
        · have : i = j := by omega
          rw [this]; exact hf
      · intro _
        exact ⟨_, ho⟩
  · intro k hk hkb hkf
    rcases hout with ⟨hf, rr, hrr, ho⟩ | ⟨hf, hlast, ho⟩
    · have hkj : k = j := by
        by_contra hne
        rcases Nat.lt_or_gt_of_ne hne with h | h
        · rw [hbefore k h] at hkf; cases hkf
        · rw [hkb j h] at hf; cases hf
      subst hkj
      exact ⟨rr, hrr, ho, hsent⟩
    · have h4 : j = 4 := by have : j + 1 = 5 := hlast; omega
      by_cases hkj : k < j
      · rw [hbefore k hkj] at hkf; cases hkf
      · have : k = j := by omega
        rw [this, hf] at hkf; cases hkf
  · intro hall
    rcases hout with ⟨hf, rr, _, ho⟩ | ⟨hf, hlast, ho⟩
    · rw [hall j hj5] at hf; cases hf
    · have h4 : j = 4 := by have : j + 1 = 5 := hlast; omega
      subst h4
      exact ⟨_, ho, givingUp_contains_tries http call _, givingUp_contains_method http call _ _,
        givingUp_contains_url http call _ _, givingUp_contains_description http call _ _⟩

/-- Witness for C5: five responses with status 503 to a GET of "http://x". -/
theorem retry_raises_iff_five_failures_witness :
    (∀ i, i < 5 → (Attempt.response { responseCode := 503, respData := [] }).failed = true) ∧
    (Attempt.response { responseCode := 503, respData := [] }).description
      = "Server returned HTTP Response code = 503" ∧
    ∃ r, makeHTTPRequestForFileReadAndWrite
        { getHttpMethodName := fun _ => "GET", getAllHeadersAsVector := fun _ => [] }
        (fun _ => Attempt.response { responseCode := 503, respData := [] })
        { responseCode := 0, respData := [] }
        { method := HttpMethod.HTTP_GET, url := "http://x", headers := [], data := [] } = some r ∧
      ∃ msg, r.outcome = Except.error msg ∧ Contains msg "Giving up after 5 tries" ∧
        Contains msg "GET" ∧ Contains msg "http://x" ∧
        Contains msg "Server returned HTTP Response code = 503" := by
  obtain ⟨r, hr, _, _, h⟩ := retry_raises_iff_five_failures
    { getHttpMethodName := fun _ => "GET", getAllHeadersAsVector := fun _ => [] }
    (fun _ => Attempt.response { responseCode := 503, respData := [] })
    { responseCode := 0, respData := [] }
    { method := HttpMethod.HTTP_GET, url := "http://x", headers := [], data := [] }
  exact ⟨fun _ _ => by decide, by decide, r, hr, h (fun _ _ => by decide)⟩

/-- C7, as the code behaves: whatever the part body and index, the request that `uploadPart`
hands to the retrying caller is a POST of the unchanged body whose header set is empty, so it
carries no `Content-Length` entry, and every request sent for it has that empty header set. -/
theorem uploadPart_sends_no_content_length (http : SimpleHttp) (net : Nat → Attempt)
    (fileUpload : Option Int → String) (ptr : List Byte) (index : Int) :
    (uploadPartCall fileUpload ptr index).data = ptr ∧
      (uploadPartCall fileUpload ptr index).method = HttpMethod.HTTP_POST ∧
      (∀ v, ("Content-Length", v) ∉ (uploadPartCall fileUpload ptr index).headers) ∧
      ∃ r, uploadPart http net fileUpload ptr index = some r ∧
        ∀ c ∈ r.sent, c.headers = [] ∧ c.data = ptr := by
  refine ⟨rfl, rfl, fun v => by simp [uploadPartCall], ?_⟩
  obtain ⟨r, _, hrun, _, _, _, hcall, _, _⟩ := retry_returns http net
    { responseCode := 0, respData := [] } (uploadPartCall fileUpload ptr index)
  refine ⟨r, hrun, fun c hc => ?_⟩
  rw [hcall c hc]
  exact ⟨rfl, rfl⟩

theorem is_closed_open (r : Remote) (f : Handle) (hremote : r.state ≠ "closed")
    (hflag : f.is_closed_ = false) :
    (is_closed r f).value = Except.ok false ∧ (is_closed r f).handle = f ∧
      (is_closed r f).api = [ApiCall.describe f.dxid_] := by
  cases f
  simp only at hflag
  subst hflag
  simp [is_closed, hremote]

/-- C8 (precondition enforcement).  When the remote object is not in state "closed" and the
cached flag is false, `seek` and `startLinearQuery` throw their `DXFileError` and leave the
handle as it was, field for field. -/
theorem precondition_error_keeps_state (r : Remote) (f : Handle) (hremote : r.state ≠ "closed")
    (hflag : f.is_closed_ = false) (p start_byte num_bytes chunk_size : Int)
    (max_chunks thread_count : Nat) :
    (seek r p f).value = Except.error
        "ERROR: Cannot call DXFile::seek() when a file is not in 'closed' state" ∧
      (seek r p f).handle = f ∧
      (startLinearQuery r start_byte num_bytes chunk_size max_chunks thread_count f).value
        = Except.error
          "ERROR: Cannot call DXFile::startLinearQuery() on a file in non-closed state" ∧
      (startLinearQuery r start_byte num_bytes chunk_size max_chunks thread_count f).handle
        = f := by
  obtain ⟨hv, hh, _⟩ := is_closed_open r f hremote hflag
  refine ⟨?_, ?_, ?_, ?_⟩ <;> simp [seek, startLinearQuery, hv, hh]

/-- Witness for C8: a freshly initialised handle with a worker and a buffered chunk, the
remote object in state "open". -/
theorem precondition_error_keeps_state_witness :
    ("open" ≠ "closed" ∧
      ({ init_internals_ blank with
          lq_results_ := [(0, [1])], lq_readThreads_ := [LqWorker.atLoopHead] } : Handle).is_closed_
        = false) ∧
    (seek { state := "open", size := 10, downloadUrl := "u" } 3
        { init_internals_ blank with
          lq_results_ := [(0, [1])], lq_readThreads_ := [LqWorker.atLoopHead] }).handle
      = { init_internals_ blank with
          lq_results_ := [(0, [1])], lq_readThreads_ := [LqWorker.atLoopHead] } ∧
    (startLinearQuery { state := "open", size := 10, downloadUrl := "u" } 0 10 5 2 3
        { init_internals_ blank with
          lq_results_ := [(0, [1])], lq_readThreads_ := [LqWorker.atLoopHead] }).handle
      = { init_internals_ blank with
          lq_results_ := [(0, [1])], lq_readThreads_ := [LqWorker.atLoopHead] } :=
  ⟨⟨by decide, rfl⟩,
    (precondition_error_keeps_state { state := "open", size := 10, downloadUrl := "u" }
      { init_internals_ blank with
        lq_results_ := [(0, [1])], lq_readThreads_ := [LqWorker.atLoopHead] }
      (by decide) rfl 3 0 10 5 2 3).2.1,
    (precondition_error_keeps_state { state := "open", size := 10, downloadUrl := "u" }
      { init_internals_ blank with
        lq_results_ := [(0, [1])], lq_readThreads_ := [LqWorker.atLoopHead] }
      (by decide) rfl 3 0 10 5 2 3).2.2.2⟩

/-- C10 as stated fails: on a closed file of 10 bytes whose length is known, with `pos = 4`
after a `read` of 4 bytes, `seek(11)` succeeds and leaves `pos = 11 > length = 10`. -/
theorem seek_breaks_pos_within_length :
    PosWithinLength (init_internals_ blank) ∧
    (read { state := "closed", size := 10, downloadUrl := "u" }
        { getHttpMethodName := fun _ => "GET", getAllHeadersAsVector := fun _ => [] }
        (fun _ => Attempt.response { responseCode := 206, respData := [0, 1, 2, 3] }) 4
        (init_internals_ blank)).map (fun res => res.handle)
      = some { init_internals_ blank with pos_ := 4, file_length_ := 10, gcount_ := 4 } ∧
    PosWithinLength { init_internals_ blank with pos_ := 4, file_length_ := 10, gcount_ := 4 } ∧
    (seek { state := "closed", size := 10, downloadUrl := "u" } 11
        { init_internals_ blank with pos_ := 4, file_length_ := 10, gcount_ := 4 }).value
      = Except.ok () ∧
    (seek { state := "closed", size := 10, downloadUrl := "u" } 11
        { init_internals_ blank with pos_ := 4, file_length_ := 10, gcount_ := 4 }).handle.pos_
      = 11 ∧
    ¬ PosWithinLength
      (seek { state := "closed", size := 10, downloadUrl := "u" } 11
        { init_internals_ blank with pos_ := 4, file_length_ := 10, gcount_ := 4 }).handle := by
  decide

/-- A `read` before the end of the file: its one call of the retrying caller and what it
leaves in the handle (lines 114-129). -/
theorem read_ranged (r : Remote) (http : SimpleHttp) (net : Nat → Attempt) (n : Int)
    (f : Handle) (length : Int)
    (hlen : length = if f.file_length_ < 0 then r.size else f.file_length_)
    (hpos : f.pos_ < length) :
    ∃ rr, makeHTTPRequestForFileReadAndWrite http net { responseCode := 0, respData := [] }
        (rangedGet r.downloadUrl f.pos_ (readEndbyte length f.pos_ n)) = some rr ∧
      ∃ res, read r http net n f = some res ∧
        res.calls = [((rangedGet r.downloadUrl f.pos_ (readEndbyte length f.pos_ n)), rr)] ∧
        res.handle.file_length_ = length ∧
        res.handle.pos_ = wrap64 (readEndbyte length f.pos_ n + 1) ∧
        res.handle.eof_
          = (if wrap64 (wrap64 (f.pos_ + n) - 1) < wrap64 (length - 1) then f.eof_ else true) ∧
        (∀ resp, rr.outcome = Except.ok resp →
          res.handle.gcount_ = resp.respData.length ∧ res.copied = resp.respData ∧
            res.error = none) ∧
        (∀ e, rr.outcome = Except.error e →
          res.handle.gcount_ = 0 ∧ res.copied = [] ∧ res.error = some e) := by
  obtain ⟨rr, _, hrun, _⟩ := retry_returns http net { responseCode := 0, respData := [] }
    (rangedGet r.downloadUrl f.pos_ (readEndbyte length f.pos_ n))
  refine ⟨rr, hrun, ?_⟩
  unfold rangedGet readEndbyte at hrun ⊢
  unfold read
  by_cases hl : f.file_length_ < 0
  · simp only [hl, if_true] at hlen
    subst hlen
    have hp : ¬ f.pos_ ≥ r.size := by omega
    by_cases hcut : wrap64 (wrap64 (f.pos_ + n) - 1) < wrap64 (r.size - 1)
    · simp only [hcut, if_true] at hrun ⊢
      simp only [hl, if_true, hp, if_false, hcut, hrun]
      cases hout : rr.outcome with
      | error e => exact ⟨_, rfl, by simp⟩
      | ok resp => exact ⟨_, rfl, by simp⟩
    · simp only [hcut, if_false] at hrun ⊢
      simp only [hl, if_true, hp, if_false, hcut, hrun]
      cases hout : rr.outcome with
      | error e => exact ⟨_, rfl, by simp⟩
      | ok resp => exact ⟨_, rfl, by simp⟩
  · simp only [hl, if_false] at hlen
    subst hlen
    have hp : ¬ f.pos_ ≥ f.file_length_ := by omega
    by_cases hcut : wrap64 (wrap64 (f.pos_ + n) - 1) < wrap64 (f.file_length_ - 1)
    · simp only [hcut, if_true] at hrun ⊢
      simp only [hl, if_false, hp, hcut, if_true, hrun]
      cases hout : rr.outcome with
      | error e => exact ⟨_, rfl, by simp⟩
      | ok resp => exact ⟨_, rfl, by simp⟩
    · simp only [hcut, if_false] at hrun ⊢
      simp only [hl, if_false, hp, hcut, hrun]
      cases hout : rr.outcome with
      | error e => exact ⟨_, rfl, by simp⟩
      | ok resp => exact ⟨_, rfl, by simp⟩

/-- A `read` at or past the end of the file (lines 109-112). -/
theorem read_at_end (r : Remote) (http : SimpleHttp) (net : Nat → Attempt) (n : Int)
    (f : Handle) (length : Int)
    (hlen : length = if f.file_length_ < 0 then r.size else f.file_length_)
    (hpos : f.pos_ ≥ length) :
    ∃ res, read r http net n f = some res ∧ res.handle.file_length_ = length ∧
      res.handle.gcount_ = 0 ∧ res.calls = [] ∧ res.copied = [] ∧ res.error = none ∧
      res.handle.pos_ = f.pos_ ∧ res.handle.eof_ = f.eof_ := by
  unfold read
  by_cases hl : f.file_length_ < 0
  · simp only [hl, if_true] at hlen
    subst hlen
    simp only [hl, if_true, hpos]
    exact ⟨_, rfl, rfl, rfl, rfl, rfl, rfl, rfl, rfl⟩
  · simp only [hl, if_false] at hlen
    subst hlen
    simp only [hl, if_false, hpos, if_true]
    exact ⟨_, rfl, rfl, rfl, rfl, rfl, rfl, rfl, rfl⟩

/-- C10, amended.  `pos ≤ length` whenever `length ≥ 0` holds after `init_internals_` and
after `setIDs`; `read` returns and preserves it for every `n` when the length is already
known or `pos` is at most the size that `describe` reports; a `seek(p)` that succeeds sets
`pos = p` unchecked, so the predicate holds afterwards exactly when the length is unknown or
`p ≤ length`. -/
theorem pos_within_length_amended (r : Remote) (http : SimpleHttp) (net : Nat → Attempt)
    (n p : Int) (dxid proj : String) (f : Handle) :
    PosWithinLength (init_internals_ f) ∧ PosWithinLength (setIDs dxid proj f) ∧
      (PosWithinLength f → (0 ≤ f.file_length_ ∨ f.pos_ ≤ r.size) →
        ∃ res, read r http net n f = some res ∧ PosWithinLength res.handle) ∧
      ((seek r p f).value = Except.ok () →
        (seek r p f).handle.pos_ = p ∧
        (seek r p f).handle.file_length_ = f.file_length_ ∧
        (PosWithinLength (seek r p f).handle ↔ (0 ≤ f.file_length_ → p ≤ f.file_length_))) := by
  refine ⟨?_, ?_, ?_, ?_⟩
  · intro h
    simp [init_internals_] at h
  · intro h
    simp [setIDs, init_internals_] at h
  · intro hinv hknown
    unfold PosWithinLength at hinv ⊢
    by_cases hpos : f.pos_ ≥ (if f.file_length_ < 0 then r.size else f.file_length_)
    · obtain ⟨res, h1, h2, _, _, _, _, h7, _⟩ := read_at_end r http net n f _ rfl hpos
      refine ⟨res, h1, ?_⟩
      rw [h2, h7]
      intro h0
      by_cases hl : f.file_length_ < 0
      · simp only [hl, if_true] at h0 ⊢
        omega
      · simp only [hl, if_false] at h0 ⊢
        exact hinv h0
    · obtain ⟨_, _, res, h1, _, h3, h4, _⟩ := read_ranged r http net n f _ rfl
        (by omega : f.pos_ < (if f.file_length_ < 0 then r.size else f.file_length_))
      refine ⟨res, h1, ?_⟩
      rw [h3, h4]
      intro h0
      generalize (if f.file_length_ < 0 then r.size else f.file_length_) = L at h0 ⊢
      unfold readEndbyte
      split_ifs
      · unfold wrap64 at *
        omega
      · unfold wrap64
        omega
  · intro hok
    have hc : (is_closed r f).value ≠ Except.ok false := by
      intro hc
      simp [seek, hc] at hok
    have hlen : (is_closed r f).handle.file_length_ = f.file_length_ := by
      unfold is_closed; split_ifs <;> rfl
    unfold PosWithinLength
    by_cases hlt : p < f.file_length_
    · simp [seek, hc, hlen, hlt]
    · simp [seek, hc, hlen, hlt]

/-- Witness for C10 (amended): a `read` of 4 bytes on a fresh handle of a 10-byte file, and a
`seek(3)` on a closed file whose length 10 is known. -/
theorem pos_within_length_amended_witness :
    (PosWithinLength (init_internals_ blank) ∧
      (0 ≤ (init_internals_ blank).file_length_ ∨ (init_internals_ blank).pos_ ≤ 10)) ∧
    (∃ res, read { state := "closed", size := 10, downloadUrl := "u" }
        { getHttpMethodName := fun _ => "GET", getAllHeadersAsVector := fun _ => [] }
        (fun _ => Attempt.response { responseCode := 206, respData := [0, 1, 2, 3] }) 4
        (init_internals_ blank) = some res ∧ PosWithinLength res.handle) ∧
    (seek { state := "closed", size := 10, downloadUrl := "u" } 3
        { init_internals_ blank with pos_ := 4, file_length_ := 10 }).value = Except.ok () ∧
    (PosWithinLength (seek { state := "closed", size := 10, downloadUrl := "u" } 3
        { init_internals_ blank with pos_ := 4, file_length_ := 10 }).handle ↔
      (0 ≤ ({ init_internals_ blank with pos_ := 4, file_length_ := 10 } : Handle).file_length_ →
        (3 : Int) ≤ ({ init_internals_ blank with pos_ := 4, file_length_ := 10 } : Handle).file_length_)) :=
  ⟨⟨by decide, by decide⟩,
    (pos_within_length_amended { state := "closed", size := 10, downloadUrl := "u" }
      { getHttpMethodName := fun _ => "GET", getAllHeadersAsVector := fun _ => [] }
      (fun _ => Attempt.response { responseCode := 206, respData := [0, 1, 2, 3] }) 4 3 "" ""
      (init_internals_ blank)).2.2.1 (by decide) (by decide),
    by decide,
    ((pos_within_length_amended { state := "closed", size := 10, downloadUrl := "u" }
      { getHttpMethodName := fun _ => "GET", getAllHeadersAsVector := fun _ => [] }
      (fun _ => Attempt.response { responseCode := 206, respData := [0, 1, 2, 3] }) 4 3 "" ""
      { init_internals_ blank with pos_ := 4, file_length_ := 10 }).2.2.2 (by decide)).2.2⟩

theorem mem_mapInsert_self (k : Int) (v : List Byte) (m : List (Int × List Byte)) :
    (k, v) ∈ mapInsert k v m := by
  simp [mapInsert]

theorem filter_lt_gt_length (k : Int) : ∀ m : List (Int × List Byte),
    (m.filter (fun e => decide (e.1 < k))).length + (m.filter (fun e => decide (k < e.1))).length
      + (m.filter (fun e => decide (e.1 = k))).length = m.length := by
  intro m
  induction m with
  | nil => rfl
  | cons x xs ih =>
    rcases Int.lt_trichotomy x.1 k with h | h | h
    · have h1 : ¬ k < x.1 := by omega
      have h2 : ¬ x.1 = k := by omega
      simp only [List.filter_cons, h, h1, h2, decide_True, decide_False, if_true,
        Bool.false_eq_true, if_false, List.length_cons]
      omega
    · simp only [List.filter_cons, h, lt_self_iff_false, decide_True, decide_False, if_true,
        Bool.false_eq_true, if_false, List.length_cons]
      omega
    · have h1 : ¬ x.1 < k := by omega
      have h2 : ¬ x.1 = k := by omega
      simp only [List.filter_cons, h, h1, h2, decide_True, decide_False, if_true,
        Bool.false_eq_true, if_false, List.length_cons]
      omega

theorem length_mapInsert_le (k : Int) (v : List Byte) (m : List (Int × List Byte)) :
    (mapInsert k v m).length ≤ m.length + 1 := by
  have := filter_lt_gt_length k m
  simp only [mapInsert, List.length_append, List.length_cons]
  omega

theorem length_mapInsert_of_mem (k : Int) (v w : List Byte) (m : List (Int × List Byte))
    (h : (k, w) ∈ m) : (mapInsert k v m).length ≤ m.length := by
  have := filter_lt_gt_length k m
  have hpos : 0 < (m.filter (fun e => decide (e.1 = k))).length :=
    List.length_pos_of_mem (List.mem_filter.mpr ⟨h, by simp⟩)
  simp only [mapInsert, List.length_append, List.length_cons]
  omega

theorem startLinearQuery_closed (r : Remote) (f0 : Handle) (start_byte num_bytes chunk_size : Int)
    (max_chunks thread_count : Nat) (hclosed : f0.is_closed_ = true ∨ r.state = "closed") :
    (startLinearQuery r start_byte num_bytes chunk_size max_chunks thread_count f0).value
        = Except.ok () ∧
      (startLinearQuery r start_byte num_bytes chunk_size max_chunks thread_count f0).handle
        = { (is_closed r f0).handle with
            lq_query_start_ := if start_byte = -1 then 0 else start_byte
            lq_query_end_ := if num_bytes = -1 then r.size
              else wrap64 ((if start_byte = -1 then 0 else start_byte) + num_bytes)
            lq_chunk_limit_ := chunk_size
            lq_max_chunks_ := max_chunks
            lq_next_result_ := if start_byte = -1 then 0 else start_byte
            lq_results_ := []
            lq_url := r.downloadUrl
            lq_readThreads_ := List.replicate thread_count LqWorker.atLoopHead } := by
  have hv : (is_closed r f0).value = Except.ok true := by
    unfold is_closed
    by_cases hf : f0.is_closed_ = true
    · simp [hf]
    · rcases hclosed with h | h
      · exact absurd h hf
      · simp [hf, h]
  unfold startLinearQuery
  simp only [hv, stopLinearQuery]
  by_cases ht : (is_closed r f0).handle.lq_readThreads_.length = 0
  · have ht2 : (is_closed r f0).handle.lq_readThreads_ = [] := List.length_eq_zero.mp ht
    simp [ht, ht2]
  · simp [ht]

/-- Every step keeps the reorder-buffer bound, whatever the server returns. -/
theorem lqStep_reorderInv (serve : Int → Int → List Byte) (max_chunks : Nat) (m : LqMove)
    (st st2 : LqState) (hinv : ReorderInv max_chunks st.handle)
    (hstep : lqStep serve m st = some st2) : ReorderInv max_chunks st2.handle := by
  obtain ⟨hmax, hle, hfull⟩ := hinv
  cases m with
  | caller =>
    unfold lqStep getNextChunk at hstep
    by_cases hno : st.handle.lq_readThreads_.length = 0
    · simp only [hno, if_true, Option.some.injEq] at hstep
      subst hstep
      exact ⟨hmax, hle, hfull⟩
    · by_cases hend : st.handle.lq_next_result_ ≥ st.handle.lq_query_end_
      · simp only [hno, if_false, hend, if_true, Option.some.injEq] at hstep
        subst hstep
        exact ⟨hmax, hle, hfull⟩
      · simp only [hno, if_false, hend] at hstep
        cases hres : st.handle.lq_results_ with
        | nil => simp [hres] at hstep
        | cons x rest =>
          obtain ⟨first, second⟩ := x
          simp only [hres] at hstep
          by_cases hkey : first ≠ st.handle.lq_next_result_
          · simp [hkey] at hstep
          · simp only [hkey, if_false, Option.some.injEq] at hstep
            subst hstep
            rw [hres] at hle
            simp only [List.length_cons] at hle
            refine ⟨hmax, ?_, ?_⟩
            · show rest.length ≤ max_chunks + 1
              omega
            · intro h
              have : rest.length = max_chunks + 1 := h
              omega
  | worker i =>
    simp only [lqStep, Option.map_eq_some'] at hstep
    obtain ⟨h, hh, rfl⟩ := hstep
    unfold readChunkStep at hh
    cases hw : st.handle.lq_readThreads_[i]? with
    | none => simp [hw] at hh
    | some w =>
      cases w with
      | exited => simp [hw] at hh
      | atLoopHead =>
        simp only [hw] at hh
        by_cases hdone : st.handle.lq_query_start_ ≥ st.handle.lq_query_end_
        · simp only [hdone, if_true, Option.some.injEq] at hh
          subst hh
          exact ⟨hmax, hle, hfull⟩
        · simp only [hdone, if_false, Option.some.injEq] at hh
          subst hh
          exact ⟨hmax, hle, hfull⟩
      | claimed start =>
        simp only [hw] at hh
        cases hf : getChunkHttp_ serve
            ((chunkEnd st.handle start - start + 1).toNat + 1) start
            (chunkEnd st.handle start) with
        | none => simp [hf] at hh
        | some tmp =>
          simp only [hf, Option.some.injEq] at hh
          subst hh
          exact ⟨hmax, hle, hfull⟩
      | fetched start tmp =>
        simp only [hw] at hh
        by_cases hwait : st.handle.lq_next_result_ ≠ start ∧
            st.handle.lq_results_.length ≥ st.handle.lq_max_chunks_
        · simp [hwait] at hh
        · simp only [hwait, if_false, Option.some.injEq] at hh
          subst hh
          have hins := length_mapInsert_le start tmp st.handle.lq_results_
          by_cases hnext : st.handle.lq_next_result_ = start
          · refine ⟨hmax, ?_, fun _ => ⟨tmp, ?_⟩⟩
            · show (mapInsert start tmp st.handle.lq_results_).length ≤ max_chunks + 1
              by_cases hfl : st.handle.lq_results_.length = max_chunks + 1
              · obtain ⟨w, hwmem⟩ := hfull hfl
                rw [hnext] at hwmem
                have := length_mapInsert_of_mem start tmp w _ hwmem
                omega
              · omega
            · show (st.handle.lq_next_result_, tmp) ∈ mapInsert start tmp st.handle.lq_results_
              rw [hnext]
              exact mem_mapInsert_self _ _ _
          · have hsmall : st.handle.lq_results_.length < max_chunks := by
              by_contra hge
              exact hwait ⟨hnext, by rw [hmax]; omega⟩
            refine ⟨hmax, ?_, ?_⟩
            · show (mapInsert start tmp st.handle.lq_results_).length ≤ max_chunks + 1
              omega
            · intro hfl
              have : (mapInsert start tmp st.handle.lq_results_).length = max_chunks + 1 := hfl
              omega

theorem lqRun_reorderInv (serve : Int → Int → List Byte) (max_chunks : Nat) :
    ∀ (moves : List LqMove) (st st2 : LqState), ReorderInv max_chunks st.handle →
      lqRun serve moves st = some st2 → ReorderInv max_chunks st2.handle := by
  intro moves
  induction moves with
  | nil =>
    intro st st2 hinv hrun
    simp only [lqRun, Option.some.injEq] at hrun
    subst hrun
    exact hinv
  | cons m ms ih =>
    intro st st2 hinv hrun
    simp only [lqRun, Option.bind_eq_some] at hrun
    obtain ⟨st1, h1, h2⟩ := hrun
    exact ih st1 st2 (lqStep_reorderInv serve max_chunks m st st1 hinv h1) h2

/-- C4 as stated fails: with `max_chunks = 2`, 3 workers and a 30-byte file in 10-byte
chunks, when the ranges complete in the order `[20,29]`, `[10,19]`, `[0,9]` the worker
holding `[0,9]` stores it without waiting (its start is `lq_next_result_`), and the reorder
buffer holds 3 entries. -/
theorem reorder_bound_counterexample :
    (lqRun (serveFile (List.range 30))
        [LqMove.worker 0, LqMove.worker 1, LqMove.worker 2, LqMove.worker 2, LqMove.worker 2,
          LqMove.worker 1, LqMove.worker 1, LqMove.worker 0, LqMove.worker 0]
        { handle := (startLinearQuery { state := "closed", size := 30, downloadUrl := "u" }
            0 30 10 2 3 (init_internals_ blank)).handle
          delivered := [] }).map
      (fun st => (st.handle.lq_max_chunks_, st.handle.lq_results_.map Prod.fst,
        st.handle.lq_results_.length))
      = some (2, [0, 10, 20], 3) ∧
    ¬ (∀ st, LqReachable (serveFile (List.range 30))
        { handle := (startLinearQuery { state := "closed", size := 30, downloadUrl := "u" }
            0 30 10 2 3 (init_internals_ blank)).handle
          delivered := [] } st →
        st.handle.lq_results_.length ≤ st.handle.lq_max_chunks_) := by
  have hrun : (lqRun (serveFile (List.range 30))
      [LqMove.worker 0, LqMove.worker 1, LqMove.worker 2, LqMove.worker 2, LqMove.worker 2,
        LqMove.worker 1, LqMove.worker 1, LqMove.worker 0, LqMove.worker 0]
      { handle := (startLinearQuery { state := "closed", size := 30, downloadUrl := "u" }
          0 30 10 2 3 (init_internals_ blank)).handle
        delivered := [] }).map
      (fun st => (st.handle.lq_max_chunks_, st.handle.lq_results_.map Prod.fst,
        st.handle.lq_results_.length))
      = some (2, [0, 10, 20], 3) := by decide
  refine ⟨hrun, fun hall => ?_⟩
  obtain ⟨st, hst, heq⟩ := Option.map_eq_some'.mp hrun
  have hle := hall st ⟨_, hst⟩
  simp only [Prod.mk.injEq] at heq
  omega

/-- C4, amended.  In every state of a linear query reached by worker and caller steps,
whatever the server returns and for every `max_chunks`, `thread_count` and order of the
steps, the reorder buffer holds at most `max_chunks + 1` entries. -/
theorem reorder_bound_amended (serve : Int → Int → List Byte) (r : Remote) (f0 : Handle)
    (start_byte num_bytes chunk_size : Int) (max_chunks thread_count : Nat)
    (hclosed : f0.is_closed_ = true ∨ r.state = "closed") (st : LqState)
    (hreach : LqReachable serve
      { handle := (startLinearQuery r start_byte num_bytes chunk_size max_chunks thread_count
          f0).handle
        delivered := [] } st) :
    st.handle.lq_max_chunks_ = max_chunks ∧ st.handle.lq_results_.length ≤ max_chunks + 1 := by
  obtain ⟨_, hhandle⟩ := startLinearQuery_closed r f0 start_byte num_bytes chunk_size
    max_chunks thread_count hclosed
  obtain ⟨moves, hrun⟩ := hreach
  have hinit : ReorderInv max_chunks
      (startLinearQuery r start_byte num_bytes chunk_size max_chunks thread_count f0).handle := by
    rw [hhandle]
    exact ⟨rfl, by simp, fun h => by simp at h⟩
  have hinv := lqRun_reorderInv serve max_chunks moves _ st hinit hrun
  exact ⟨hinv.1, hinv.2.1⟩

/-- Witness for C4 (amended): the state of the counterexample, where the bound
`max_chunks + 1 = 3` is attained. -/
theorem reorder_bound_amended_witness :
    ("closed" = "closed") ∧
    ∃ st, LqReachable (serveFile (List.range 30))
        { handle := (startLinearQuery { state := "closed", size := 30, downloadUrl := "u" }
            0 30 10 2 3 (init_internals_ blank)).handle
          delivered := [] } st ∧
      st.handle.lq_results_.length = 3 ∧
      st.handle.lq_max_chunks_ = 2 ∧ st.handle.lq_results_.length ≤ 2 + 1 := by
  have hrun : (lqRun (serveFile (List.range 30))
      [LqMove.worker 0, LqMove.worker 1, LqMove.worker 2, LqMove.worker 2, LqMove.worker 2,
        LqMove.worker 1, LqMove.worker 1, LqMove.worker 0, LqMove.worker 0]
      { handle := (startLinearQuery { state := "closed", size := 30, downloadUrl := "u" }
          0 30 10 2 3 (init_internals_ blank)).handle
        delivered := [] }).map (fun st => st.handle.lq_results_.length) = some 3 := by decide
  obtain ⟨st, hst, heq⟩ := Option.map_eq_some'.mp hrun
  exact ⟨rfl, st, ⟨_, hst⟩, heq,
    reorder_bound_amended (serveFile (List.range 30))
      { state := "closed", size := 30, downloadUrl := "u" } (init_internals_ blank) 0 30 10 2 3
      (Or.inr rfl) st ⟨_, hst⟩⟩

/-- C11 as stated fails on the byte count: on a handle with `length = 10` and `pos = 0`,
`read(dst, 4)` asks for `bytes=0-3`; when the response body holds 2 bytes, `pos` still
advances by the range length 4 while `gcount` is 2.  The one call of the retrying caller is
not one request either: after a 503 it sends the same GET a second time.  It fails on the
range as well when `pos + n - 1` passes `2^63 - 1`: with `length = 10`, `pos = 4` and
`n = 2^63 - 1` the `int64_t` sum `pos + n - 1` wraps to `-(2^63 - 2)`, which is below
`length - 1`, so the header is `bytes=4--9223372036854775806`, `eof` stays unset and `pos`
becomes negative, where the claim has `bytes=4-9`, `eof` set and `pos = 10`. -/
theorem read_gcount_counterexample :
    (read { state := "closed", size := 10, downloadUrl := "u" }
        { getHttpMethodName := fun _ => "GET", getAllHeadersAsVector := fun _ => [] }
        (fun _ => Attempt.response { responseCode := 206, respData := [0, 1] }) 4
        { init_internals_ blank with file_length_ := 10 }).map
      (fun res => (res.handle.pos_, res.handle.gcount_,
        res.calls.map (fun c => (c.1, c.2.sent.length))))
      = some (4, 2, [(rangedGet "u" 0 3, 1)]) ∧
    (read { state := "closed", size := 10, downloadUrl := "u" }
        { getHttpMethodName := fun _ => "GET", getAllHeadersAsVector := fun _ => [] }
        (fun k => if k = 0 then Attempt.response { responseCode := 503, respData := [] }
          else Attempt.response { responseCode := 206, respData := [0, 1, 2, 3] }) 4
        { init_internals_ blank with file_length_ := 10 }).map
      (fun res => (res.handle.pos_, res.handle.gcount_,
        res.calls.map (fun c => (c.1, c.2.sent.length))))
      = some (4, 4, [(rangedGet "u" 0 3, 2)]) ∧
    (read { state := "closed", size := 10, downloadUrl := "u" }
        { getHttpMethodName := fun _ => "GET", getAllHeadersAsVector := fun _ => [] }
        (fun _ => Attempt.response { responseCode := 206, respData := [] })
        9223372036854775807
        { init_internals_ blank with file_length_ := 10, pos_ := 4 }).map
      (fun res => (res.handle.pos_, res.handle.eof_,
        res.calls.map (fun c => (c.1, c.2.sent.length))))
      = some (-9223372036854775805, false,
          [(rangedGet "u" 4 (-9223372036854775806), 1)]) ∧
    (rangedGet "u" 4 (-9223372036854775806)).headers
      = [("Range", "bytes=4--9223372036854775806")] := by
  refine ⟨by decide, by decide, by decide, by decide⟩

/-- C11, amended.  For `n ≥ 1` with `pos + n - 1 ≤ 2^63 - 1` (`pos` and the length being
`int64_t` values), with `length` the known length of the handle or else the
size that `describe` reports, `read(dst, n)` returns.  If `pos ≥ length` it sets
`gcount = 0`, calls the retrying caller not at all and leaves `pos` and `eof` unchanged.
Otherwise it makes exactly one call of the retrying HTTP caller, for a GET with
`Range: bytes=pos-endbyte`, `endbyte = min(length - 1, pos + n - 1)` (every request of that
call is this one); it sets `eof` when `pos + n - 1 ≥ length - 1` and leaves it unchanged
otherwise; it advances `pos` by the range length `endbyte - pos + 1`; and it sets `gcount`
to the number of bytes of the response body that the call returns, which it copies to
`dst`: the range length when the body has that many bytes.  If the call raises, `gcount`
stays 0. -/
theorem read_one_ranged_call (r : Remote) (http : SimpleHttp) (net : Nat → Attempt) (n : Int)
    (f : Handle) (length : Int) (hn : 1 ≤ n)
    (hlen : length = if f.file_length_ < 0 then r.size else f.file_length_)
    (hpmin : INT64_MIN ≤ f.pos_) (hlmax : length ≤ INT64_MAX)
    (hbound : f.pos_ + n - 1 ≤ INT64_MAX) :
    ∃ res, read r http net n f = some res ∧ res.handle.file_length_ = length ∧
      (f.pos_ ≥ length →
        res.handle.gcount_ = 0 ∧ res.calls = [] ∧ res.copied = [] ∧
          res.handle.pos_ = f.pos_ ∧ res.handle.eof_ = f.eof_) ∧
      (f.pos_ < length →
        ∃ rr, makeHTTPRequestForFileReadAndWrite http net { responseCode := 0, respData := [] }
            (rangedGet r.downloadUrl f.pos_ (min (length - 1) (f.pos_ + n - 1))) = some rr ∧
          res.calls
            = [(rangedGet r.downloadUrl f.pos_ (min (length - 1) (f.pos_ + n - 1)), rr)] ∧
          (∀ c ∈ rr.sent,
            c = rangedGet r.downloadUrl f.pos_ (min (length - 1) (f.pos_ + n - 1))) ∧
          f.pos_ ≤ min (length - 1) (f.pos_ + n - 1) ∧
          (f.pos_ + n - 1 ≥ length - 1 → res.handle.eof_ = true) ∧
          (f.pos_ + n - 1 < length - 1 → res.handle.eof_ = f.eof_) ∧
          res.handle.pos_ = f.pos_ + (min (length - 1) (f.pos_ + n - 1) - f.pos_ + 1) ∧
          (∀ resp, rr.outcome = Except.ok resp →
            res.handle.gcount_ = resp.respData.length ∧ res.copied = resp.respData ∧
              ((resp.respData.length : Int) = min (length - 1) (f.pos_ + n - 1) - f.pos_ + 1 →
                res.handle.gcount_ = min (length - 1) (f.pos_ + n - 1) - f.pos_ + 1)) ∧
          (∀ e, rr.outcome = Except.error e →
            res.handle.gcount_ = 0 ∧ res.error = some e)) := by
  have hM : INT64_MAX = 9223372036854775807 := rfl
  have hm : INT64_MIN = -9223372036854775808 := rfl
  by_cases hpos : f.pos_ ≥ length
  · obtain ⟨res, h1, h2, h3, h4, h5, _, h7, h8⟩ := read_at_end r http net n f length hlen hpos
    exact ⟨res, h1, h2, fun _ => ⟨h3, h4, h5, h7, h8⟩, fun hlt => by omega⟩
  · have w1 : wrap64 (wrap64 (f.pos_ + n) - 1) = f.pos_ + n - 1 := by
      rw [wrap64_sub_one]
      exact wrap64_of_range _ (by omega) (by omega)
    have w2 : wrap64 (length - 1) = length - 1 := wrap64_of_range _ (by omega) (by omega)
    have hE : readEndbyte length f.pos_ n = min (length - 1) (f.pos_ + n - 1) := by
      unfold readEndbyte
      rw [w1, w2]
      split_ifs <;> omega
    have w3 : wrap64 (min (length - 1) (f.pos_ + n - 1) + 1)
        = min (length - 1) (f.pos_ + n - 1) + 1 := wrap64_of_range _ (by omega) (by omega)
    obtain ⟨rr, hrun, res, h1, h2, h3, h4, h5, h6, h7⟩ :=
      read_ranged r http net n f length hlen (by omega)
    rw [hE] at hrun h2 h4
    rw [w3] at h4
    rw [w1, w2] at h5
    obtain ⟨rr2, _, hrun2, _, _, _, hcall, _⟩ := retry_returns http net
      { responseCode := 0, respData := [] }
      (rangedGet r.downloadUrl f.pos_ (min (length - 1) (f.pos_ + n - 1)))
    have hrr : rr2 = rr := by
      rw [hrun] at hrun2
      exact (Option.some.inj hrun2).symm
    subst hrr
    refine ⟨res, h1, h3, fun hge => absurd hge hpos, fun _ => ⟨rr2, hrun, h2, hcall, by omega,
      ?_, ?_, by rw [h4]; omega, ?_, ?_⟩⟩
    · intro hge
      have : ¬ f.pos_ + n - 1 < length - 1 := by omega
      rw [h5, if_neg this]
    · intro hlt
      rw [h5, if_pos hlt]
    · intro resp hresp
      obtain ⟨g1, g2, _⟩ := h6 resp hresp
      exact ⟨g1, g2, fun hfull => by rw [g1, hfull]⟩
    · intro e he
      obtain ⟨g1, _, g3⟩ := h7 e he
      exact ⟨g1, g3⟩

/-- Witness for C11 (amended): a `read` of 4 bytes at `pos = 0` of a 10-byte file whose
length is known, served in full. -/
theorem read_one_ranged_call_witness :
    ((1 : Int) ≤ 4 ∧
      (10 : Int) = (if ({ init_internals_ blank with file_length_ := 10 } : Handle).file_length_ < 0
        then 10 else ({ init_internals_ blank with file_length_ := 10 } : Handle).file_length_) ∧
      INT64_MIN ≤ ({ init_internals_ blank with file_length_ := 10 } : Handle).pos_ ∧
      (10 : Int) ≤ INT64_MAX ∧
      ({ init_internals_ blank with file_length_ := 10 } : Handle).pos_ + 4 - 1 ≤ INT64_MAX) ∧
    (read { state := "closed", size := 10, downloadUrl := "u" }
        { getHttpMethodName := fun _ => "GET", getAllHeadersAsVector := fun _ => [] }
        (fun _ => Attempt.response { responseCode := 206, respData := [0, 1, 2, 3] }) 4
        { init_internals_ blank with file_length_ := 10 }).map
      (fun res => (res.handle.pos_, res.handle.gcount_, res.handle.eof_, res.copied,
        res.calls.map (fun c => c.1)))
      = some (4, 4, false, [0, 1, 2, 3], [rangedGet "u" 0 3]) ∧
    ∃ res, read { state := "closed", size := 10, downloadUrl := "u" }
        { getHttpMethodName := fun _ => "GET", getAllHeadersAsVector := fun _ => [] }
        (fun _ => Attempt.response { responseCode := 206, respData := [0, 1, 2, 3] }) 4
        { init_internals_ blank with file_length_ := 10 } = some res ∧
      res.handle.file_length_ = 10 := by
  obtain ⟨res, h1, h2, _⟩ := read_one_ranged_call
    { state := "closed", size := 10, downloadUrl := "u" }
    { getHttpMethodName := fun _ => "GET", getAllHeadersAsVector := fun _ => [] }
    (fun _ => Attempt.response { responseCode := 206, respData := [0, 1, 2, 3] }) 4
    { init_internals_ blank with file_length_ := 10 } 10 (by decide) (by decide) (by decide)
    (by decide) (by decide)
  exact ⟨⟨by decide, by decide, by decide, by decide, by decide⟩, by decide, res, h1, h2⟩

/-- C13 (reorder buffer, implicit bound).  In every state of a linear query reached by
worker and caller steps, for every chunk size, server and schedule, the reorder buffer holds
at most `max_chunks + 1` entries, and when it holds `max_chunks + 1` one of them has the key
`lq_next_result_`.  A worker whose fetched range starts at `lq_next_result_` stores it
without waiting, whatever the size of the buffer. -/
theorem reorder_full_only_at_next (serve : Int → Int → List Byte) (r : Remote) (f0 : Handle)
    (start_byte num_bytes chunk_size : Int) (max_chunks thread_count : Nat)
    (hclosed : f0.is_closed_ = true ∨ r.state = "closed") (st : LqState)
    (hreach : LqReachable serve
      { handle := (startLinearQuery r start_byte num_bytes chunk_size max_chunks thread_count
          f0).handle
        delivered := [] } st) :
    st.handle.lq_results_.length ≤ max_chunks + 1 ∧
      (st.handle.lq_results_.length = max_chunks + 1 →
        ∃ v, (st.handle.lq_next_result_, v) ∈ st.handle.lq_results_) ∧
      (∀ i tmp,
        st.handle.lq_readThreads_[i]? = some (LqWorker.fetched st.handle.lq_next_result_ tmp) →
        ∃ h, readChunkStep serve i st.handle = some h ∧
          h.lq_results_ = mapInsert st.handle.lq_next_result_ tmp st.handle.lq_results_) := by
  obtain ⟨_, hhandle⟩ := startLinearQuery_closed r f0 start_byte num_bytes chunk_size
    max_chunks thread_count hclosed
  obtain ⟨moves, hrun⟩ := hreach
  have hinit : ReorderInv max_chunks
      (startLinearQuery r start_byte num_bytes chunk_size max_chunks thread_count f0).handle := by
    rw [hhandle]
    exact ⟨rfl, by simp, fun h => by simp at h⟩
  obtain ⟨_, hle, hfull⟩ := lqRun_reorderInv serve max_chunks moves _ st hinit hrun
  refine ⟨hle, hfull, ?_⟩
  intro i tmp hw
  have hwait : ¬ (st.handle.lq_next_result_ ≠ st.handle.lq_next_result_ ∧
      st.handle.lq_results_.length ≥ st.handle.lq_max_chunks_) := fun h => h.1 rfl
  exact ⟨_, by simp only [readChunkStep, hw, hwait, if_false]; rfl, rfl⟩

/-- Witness for C13: `max_chunks = 1`, 2 workers, 20 bytes in chunks of 10; the range
`[10,19]` is stored first, then `[0,9]`, whose start is `lq_next_result_ = 0`: the buffer
holds `max_chunks + 1 = 2` entries, one of them with key 0. -/
theorem reorder_full_only_at_next_witness :
    ("closed" = "closed") ∧
    (lqRun (serveFile (List.range 20))
        [LqMove.worker 0, LqMove.worker 1, LqMove.worker 1, LqMove.worker 1, LqMove.worker 0,
          LqMove.worker 0]
        { handle := (startLinearQuery { state := "closed", size := 20, downloadUrl := "u" }
            0 20 10 1 2 (init_internals_ blank)).handle
          delivered := [] }).map
      (fun st => (st.handle.lq_max_chunks_, st.handle.lq_next_result_,
        st.handle.lq_results_.map Prod.fst))
      = some (1, 0, [0, 10]) ∧
    ∃ st, LqReachable (serveFile (List.range 20))
        { handle := (startLinearQuery { state := "closed", size := 20, downloadUrl := "u" }
            0 20 10 1 2 (init_internals_ blank)).handle
          delivered := [] } st ∧
      st.handle.lq_results_.length = 1 + 1 ∧
      ∃ v, (st.handle.lq_next_result_, v) ∈ st.handle.lq_results_ := by
  have hrun : (lqRun (serveFile (List.range 20))
      [LqMove.worker 0, LqMove.worker 1, LqMove.worker 1, LqMove.worker 1, LqMove.worker 0,
        LqMove.worker 0]
      { handle := (startLinearQuery { state := "closed", size := 20, downloadUrl := "u" }
          0 20 10 1 2 (init_internals_ blank)).handle
        delivered := [] }).map (fun st => st.handle.lq_results_.length) = some 2 := by decide
  obtain ⟨st, hst, heq⟩ := Option.map_eq_some'.mp hrun
  have h := reorder_full_only_at_next (serveFile (List.range 20))
    { state := "closed", size := 20, downloadUrl := "u" } (init_internals_ blank) 0 20 10 1 2
    (Or.inr rfl) st ⟨_, hst⟩
  exact ⟨rfl, by decide, st, ⟨_, hst⟩, heq, h.2.1 heq⟩

end DXFile
